import Mathlib

set_option autoImplicit false

/-!
Shallow embedding of the execution core of the red-cod interpreter
(src/codebox.rs, src/stack.rs, src/interpreter.rs), together with proofs
about the codebox construction, the stack machine and the pointer movement.

Conventions of the embedding:

* Rust `f64` values are modelled by `RedCod.F64`: either NaN or an exact
  rational (every finite double is a rational; infinities play no role in the
  operations studied here, which never produce or branch on them).
* `VecDeque<f64>` is modelled by `List F64` with index 0 the front of the
  deque (the bottom of a stack); `push_back`/`pop_back` act on the end of the
  list.
* `Vec<Stack>` is modelled by `List Stack` with `push`/`pop` acting on the
  end of the list, so `List.getLast?` is `last_mut`.
* `HashMap<Pos, Instruction>` is modelled by the lookup function
  `Pos → Option Instruction` it denotes.
* Fallible Rust methods returning `Result` become functions into `Except`;
  `&mut self` methods return the updated value.
* The unbounded skip-over-noops loop of `move_to_next` takes explicit fuel.
-/

namespace RedCod

/-- Model of a Rust `f64` value: NaN, or a finite value as an exact rational. -/
inductive F64 where
  | nan : F64
  | num : ℚ → F64
deriving DecidableEq

/-- Rust's saturating `as usize` cast on an `f64`: NaN and negative values go
to 0, other values are truncated toward zero and clamped to `usize::MAX`. -/
def F64.toUsize : F64 → Nat
  | F64.nan => 0
  | F64.num q => if q < 0 then 0 else min (q.num.toNat / q.den) (2 ^ 64 - 1)

/-- Holds exactly when the value is negative or NaN (the values Rust's
`as usize` sends to 0). -/
def F64.isNegOrNan : F64 → Bool
  | F64.nan => true
  | F64.num q => decide (q < 0)

/-- `enum StackError` from src/stack.rs. -/
inductive StackError where
  | underflow : StackError
deriving DecidableEq

/-- `enum RuntimeError` from src/interpreter.rs. -/
inductive RuntimeError where
  | invalidInstr : Char → RuntimeError
  | unimplementedInstr : Char → RuntimeError
  | invalidPosition : F64 → F64 → RuntimeError
  | charConversionFailure : RuntimeError
  | stackError : StackError → RuntimeError
  | unexpectedEOF : RuntimeError
deriving DecidableEq

/-- `enum Direction` from src/interpreter.rs. -/
inductive Direction where
  | north : Direction
  | east : Direction
  | south : Direction
  | west : Direction
deriving DecidableEq

/-- `Direction::reverse` from src/interpreter.rs. -/
def Direction.reverse : Direction → Direction
  | Direction.north => Direction.south
  | Direction.east => Direction.west
  | Direction.south => Direction.north
  | Direction.west => Direction.east

/-- The `'/'` mirror arm of `Interpreter::execute_instruction`. -/
def slashDir : Direction → Direction
  | Direction.north => Direction.east
  | Direction.east => Direction.north
  | Direction.south => Direction.west
  | Direction.west => Direction.south

/-- The `'\'` mirror arm of `Interpreter::execute_instruction`. -/
def backslashDir : Direction → Direction
  | Direction.north => Direction.west
  | Direction.east => Direction.south
  | Direction.south => Direction.east
  | Direction.west => Direction.north

/-- The `'|'` arm of `Interpreter::execute_instruction`: reverse when the
direction is West or East. -/
def pipeDir (d : Direction) : Direction :=
  if d = Direction.west ∨ d = Direction.east then d.reverse else d

/-- The `'_'` arm of `Interpreter::execute_instruction`, transcribed exactly:
the source's guard tests `dir == North || dir == North` (the same variant
twice), so only North is ever reversed. -/
def underscoreDir (d : Direction) : Direction :=
  if d = Direction.north ∨ d = Direction.north then d.reverse else d

/-- The `'#'` arm of `Interpreter::execute_instruction`: unconditional
reversal. -/
def hashDir (d : Direction) : Direction :=
  d.reverse

/-- `struct Pos` from src/codebox.rs. -/
structure Pos where
  x : Nat
  y : Nat
deriving DecidableEq

/-- `enum Instruction` from src/codebox.rs. -/
inductive Instruction where
  | noop : Instruction
  | op : Char → Instruction
deriving DecidableEq

/-- `struct Codebox` from src/codebox.rs; the `HashMap` is modelled by its
lookup function. -/
structure Codebox where
  code : Pos → Option Instruction
  width : Nat
  height : Nat

/-- Byte length of one source line, as Rust's `String::len` reports it
(UTF-8 bytes, not characters). -/
def lineByteLen (l : List Char) : Nat :=
  (l.map Char.utf8Size).sum

/-- `Codebox::new` from src/codebox.rs, taking the already split lines of the
source as lists of characters. `width` is the `len()` (byte length) of the
longest line, `height` the number of lines; each character at column `x` of
line `y` is inserted as `Noop` when it is a space and `Op` otherwise, where
the column index counts characters. -/
def Codebox.new (lines : List (List Char)) : Codebox where
  code := fun p =>
    match (lines.get? p.y).bind (fun l => l.get? p.x) with
    | some c => some (if c = ' ' then Instruction.noop else Instruction.op c)
    | none => none
  width := (lines.map lineByteLen).foldr max 0
  height := lines.length

/-- `Codebox::get_instruction`: the stored cell, or `Noop` when unset. -/
def Codebox.get_instruction (cb : Codebox) (p : Pos) : Instruction :=
  (cb.code p).getD Instruction.noop

/-- `Codebox::set_instruction`: always inserts `Op(instr)`, even for a
space. -/
def Codebox.set_instruction (cb : Codebox) (p : Pos) (instr : Char) : Codebox :=
  { cb with code := fun q => if q = p then some (Instruction.op instr) else cb.code q }

/-- `get_wrapped_coord` from src/interpreter.rs. -/
def getWrappedCoord (coord : Nat) (incr : Int) (mx : Nat) : Nat :=
  if coord = 0 ∧ incr < 0 then mx - 1
  else if (coord : Int) + incr ≥ (mx : Int) then 0
  else ((coord : Int) + incr).toNat

/-- `Interpreter::get_next_pos`: one raw step of the pointer in direction `d`
on a codebox of width `w` and height `h`. -/
def getNextPos (w h : Nat) (d : Direction) (p : Pos) : Pos :=
  match d with
  | Direction.north => Pos.mk p.x (getWrappedCoord p.y (-1) h)
  | Direction.east => Pos.mk (getWrappedCoord p.x 1 w) p.y
  | Direction.south => Pos.mk p.x (getWrappedCoord p.y 1 h)
  | Direction.west => Pos.mk (getWrappedCoord p.x (-1) w) p.y

/-- `enum ParseMode` from src/interpreter.rs. -/
inductive ParseMode where
  | normal : ParseMode
  | text : Char → ParseMode
deriving DecidableEq

/-- The `while` loop of `Interpreter::move_to_next` that skips `Noop` cells in
Normal mode, with explicit fuel (the Rust loop is unbounded). -/
def skipNoops (cb : Codebox) (d : Direction) : Nat → Pos → Pos
  | 0, p => p
  | fuel + 1, p =>
    if cb.get_instruction p = Instruction.noop
    then skipNoops cb d fuel (getNextPos cb.width cb.height d p)
    else p

/-- `Interpreter::move_to_next`: advance one raw step, then in Normal mode
keep advancing while the cell is a `Noop`. -/
def moveToNext (cb : Codebox) (mode : ParseMode) (d : Direction) (fuel : Nat) (p : Pos) : Pos :=
  let p2 := getNextPos cb.width cb.height d p
  if mode = ParseMode.normal then skipNoops cb d fuel p2 else p2

/-- The single-quote character, `Char.ofNat 39`. -/
def squote : Char := Char.ofNat 39

/-- The double-quote character, `Char.ofNat 34`. -/
def dquote : Char := Char.ofNat 34

/-- The backslash character, `Char.ofNat 92`. -/
def bslash : Char := Char.ofNat 92

/-- The characters matched by the dispatch arms of
`Interpreter::execute_instruction` (Normal mode): the hex digit ranges
`'0'..='9' | 'a'..='f'` and every literal character arm of the `match`. -/
def recognizedOp (c : Char) : Bool :=
  (('0' ≤ c && c ≤ '9') || ('a' ≤ c && c ≤ 'f')) ||
  ['+', '-', '*', ',', '%', '=', ')', '(', ':', '~', '$', '@', '}', '{',
   '[', ']', 'l', 'r', '&', '!', '?', '^', '>', 'v', '<', '/', bslash,
   '|', '_', '#', 'x', '.', dquote, squote, 'n', 'o', 'i', 'g', 'p',
   ';'].contains c

/-- The fallback arm of `Interpreter::execute_instruction`: a character not
matched by any dispatch arm raises `InvalidInstruction` in Normal mode. -/
def normalDispatchError (c : Char) : Option RuntimeError :=
  if recognizedOp c then none else some (RuntimeError.invalidInstr c)

/-- `struct Stack` from src/stack.rs: the entries of the `VecDeque`
(index 0 = front = bottom, last = back = top) and the register. -/
structure Stack where
  entries : List F64
  register : Option F64
deriving DecidableEq

/-- `Stack::new`. -/
def Stack.new : Stack :=
  Stack.mk [] none

/-- `Stack::pop`: `pop_back`, i.e. remove the last entry; `Underflow` when
empty. -/
def Stack.pop (s : Stack) : Except StackError (F64 × Stack) :=
  match s.entries.getLast? with
  | some v => Except.ok (v, Stack.mk s.entries.dropLast s.register)
  | none => Except.error StackError.underflow

/-- `Stack::push`: `push_back`. -/
def Stack.push (s : Stack) (val : F64) : Stack :=
  Stack.mk (s.entries ++ [val]) s.register

/-- `Stack::clear`: unset the register and clear the entries. -/
def Stack.clear (_s : Stack) : Stack :=
  Stack.mk [] none

/-- `Stack::split`: pop the count `n` (cast with `as usize`), fail with
`Underflow` when fewer than `n` entries remain, otherwise `split_off` the top
`n` entries into a fresh stack (register unset, per `Stack::from_iter`).
Returns the new stack together with the remaining one. -/
def Stack.split (s : Stack) : Except StackError (Stack × Stack) :=
  match s.pop with
  | Except.error e => Except.error e
  | Except.ok (v, s1) =>
    let n := v.toUsize
    let selfLen := s1.entries.length
    if selfLen < n then Except.error StackError.underflow
    else
      Except.ok (Stack.mk (s1.entries.drop (selfLen - n)) none,
                 Stack.mk (s1.entries.take (selfLen - n)) s1.register)

/-- `VecDeque::swap` on the entry list: exchange the elements at indices `i`
and `j` (the source only calls it in bounds). -/
def listSwap (l : List F64) (i j : Nat) : List F64 :=
  match l.get? i, l.get? j with
  | some a, some b => (l.set i b).set j a
  | _, _ => l

/-- The `for i in 1..n` loop of `Stack::swap`: `swapSteps len l k` is the
entry list after the first `k` iterations, iteration `i` swapping indices
`len - i` and `len - i - 1`. -/
def swapSteps (len : Nat) (l : List F64) : Nat → List F64
  | 0 => l
  | k + 1 => listSwap (swapSteps len l k) (len - (k + 1)) (len - (k + 1) - 1)

/-- `Stack::swap` from src/stack.rs (the `$` and `@` instructions):
`Underflow` when `n` exceeds the length, otherwise perform the `n - 1`
adjacent swaps of the loop. -/
def Stack.swap (n : Nat) (s : Stack) : Except StackError Stack :=
  let len := s.entries.length
  if n > len then Except.error StackError.underflow
  else Except.ok (Stack.mk (swapSteps len s.entries (n - 1)) s.register)

/-- `Stack::swap_register` from src/stack.rs (the `&` instruction),
transcribed exactly: when the register holds a value it is pushed but the
register field is not written, so it keeps its value; when the register is
empty the popped value is stored into it. -/
def Stack.swap_register (s : Stack) : Except StackError Stack :=
  match s.register with
  | some val => Except.ok (s.push val)
  | none =>
    match s.pop with
    | Except.ok (v, s1) => Except.ok (Stack.mk s1.entries (some v))
    | Except.error e => Except.error e

/-- `Stack::extend`: append values to the entries (register untouched). -/
def Stack.extend (s : Stack) (vals : List F64) : Stack :=
  Stack.mk (s.entries ++ vals) s.register

/-- `struct ProgramStack` from src/stack.rs: the base stack and the vector of
substacks pushed on top of it. -/
structure ProgramStack where
  base : Stack
  substacks : List Stack
deriving DecidableEq

/-- Modelled from the spec: `ProgramStack::new` (used by
`Interpreter::new` but absent from src/stack.rs) starts with a single empty
base substack whose register is unset. -/
def ProgramStack.new : ProgramStack :=
  ProgramStack.mk Stack.new []

/-- `ProgramStack::curr`: the last substack, or the base when there is
none. -/
def ProgramStack.curr (ps : ProgramStack) : Stack :=
  (ps.substacks.getLast?).getD ps.base

/-- Writing through the `&mut Stack` that `ProgramStack::curr` returns:
replace the last substack, or the base when there is none. -/
def ProgramStack.setCurr (ps : ProgramStack) (s : Stack) : ProgramStack :=
  match ps.substacks with
  | [] => ProgramStack.mk s ps.substacks
  | _ :: _ => ProgramStack.mk ps.base (ps.substacks.dropLast ++ [s])

/-- `ProgramStack::split_stack` (the `[` instruction): split the current
stack and push the new stack on top. -/
def ProgramStack.split_stack (ps : ProgramStack) : Except StackError ProgramStack :=
  match ps.curr.split with
  | Except.error e => Except.error e
  | Except.ok (newStack, rest) =>
    let ps1 := ps.setCurr rest
    Except.ok (ProgramStack.mk ps1.base (ps1.substacks ++ [newStack]))

/-- `ProgramStack::drop_stack` (the `]` instruction): pop the top substack
and extend the new current stack with its values (its register is never
read); when no substack remains, clear the base. -/
def ProgramStack.drop_stack (ps : ProgramStack) : ProgramStack :=
  match ps.substacks.getLast? with
  | some top =>
    let ps1 := ProgramStack.mk ps.base ps.substacks.dropLast
    ps1.setCurr (ps1.curr.extend top.entries)
  | none => ProgramStack.mk ps.base.clear ps.substacks

/-- All substacks of the machine, base first. -/
def ProgramStack.allStacks (ps : ProgramStack) : List Stack :=
  ps.base :: ps.substacks

/-- Width of a line counted in characters — the reading of "maximum line
length measured in characters" in the specification, for comparison with the
byte-based width `Codebox::new` actually computes. -/
def specCharWidth (lines : List (List Char)) : Nat :=
  (lines.map List.length).foldr max 0

/-- C1: the guard of the `_` arm tests North twice, so the code reverses the
direction only when it is North; a South direction is left unchanged, contrary
to the claim (and to the intent recorded in the specification's design
notes). This theorem evaluates the embedded arm on all four directions. -/
theorem underscoreDir_only_reverses_north :
    underscoreDir Direction.south = Direction.south ∧
    underscoreDir Direction.north = Direction.south ∧
    underscoreDir Direction.east = Direction.east ∧
    underscoreDir Direction.west = Direction.west := by
  decide

/-- C2: `swap_register` with a full register pushes the register's value but
never clears the register field, so the register still holds the value
afterwards, contrary to the claim (and to the function's own name); with an
empty register it pops into the register, and underflows on an empty
substack. -/
theorem swap_register_keeps_register :
    Stack.swap_register (Stack.mk [] (some (F64.num 5))) =
      Except.ok (Stack.mk [F64.num 5] (some (F64.num 5))) ∧
    Stack.swap_register (Stack.mk [F64.num 3] none) =
      Except.ok (Stack.mk [] (some (F64.num 3))) ∧
    Stack.swap_register (Stack.mk [] none) = Except.error StackError.underflow :=
  ⟨rfl, rfl, rfl⟩

/-- C6 counterexample: two applications of `/` (and of `\`) already restore
the direction East, so the mirrors do not have order 4 ("four applications,
and no fewer") as claimed. -/
theorem mirror_order_counterexample :
    slashDir (slashDir Direction.east) = Direction.east ∧
    backslashDir (backslashDir Direction.east) = Direction.east := by
  decide

/-- C6 amended: `#` is an involution on direction, and the mirrors `/` and
`\` are involutions as well — each has order exactly 2 (two applications
restore every direction and one never does), hence four applications also
restore every direction. -/
theorem mirror_involutions (d : Direction) :
    hashDir (hashDir d) = d ∧
    slashDir (slashDir d) = d ∧
    backslashDir (backslashDir d) = d ∧
    slashDir d ≠ d ∧
    backslashDir d ≠ d := by
  cases d <;> decide

/-- C8: the machine always holds at least one substack — the base is a
separate field of `ProgramStack`, so no state lacks it — and `]` executed
when only the base remains clears the base's values and register (yielding a
fresh empty stack) instead of removing it. -/
theorem base_never_removed :
    (∀ ps : ProgramStack, 1 ≤ ps.allStacks.length) ∧
    (∀ b : Stack, (ProgramStack.mk b []).drop_stack =
      ProgramStack.mk (Stack.mk [] none) []) := by
  constructor
  · intro ps
    simp [ProgramStack.allStacks]
  · intro b
    rfl

/-- C4 counterexample: for the one-line source consisting of the single
character U+00E9 (two UTF-8 bytes), `Codebox::new` computes width 2 — taking
`String::len`, a byte count — while the maximum line length measured in
characters is 1. -/
theorem codebox_width_counterexample :
    (Codebox.new [[Char.ofNat 233]]).width = 2 ∧
    specCharWidth [[Char.ofNat 233]] = 1 ∧
    (Codebox.new [[Char.ofNat 233]]).width ≠ specCharWidth [[Char.ofNat 233]] := by
  decide

/-- Sum of UTF-8 sizes collapses to the character count when every character
is a single byte. -/
theorem lineByteLen_ascii (l : List Char) (h : ∀ c ∈ l, Char.utf8Size c = 1) :
    lineByteLen l = l.length := by
  induction l with
  | nil => rfl
  | cons c l ih =>
    have hc : Char.utf8Size c = 1 := h c (List.mem_cons_self c l)
    have hl : ∀ x ∈ l, Char.utf8Size x = 1 := fun x hx => h x (List.mem_cons_of_mem c hx)
    simp [lineByteLen] at ih ⊢
    rw [hc, ih hl]
    omega

/-- C4 amended: the codebox built from the source lines has height the number
of lines and width the maximum line length measured in UTF-8 bytes (0 for an
empty source), the values the `width`/`height` accessors return; when every
character of the source is a single UTF-8 byte (in particular for ASCII
sources) this coincides with the maximum line length in characters. -/
theorem codebox_dimensions (lines : List (List Char)) :
    (Codebox.new lines).height = lines.length ∧
    (Codebox.new lines).width = (lines.map lineByteLen).foldr max 0 ∧
    ((∀ l ∈ lines, ∀ c ∈ l, Char.utf8Size c = 1) →
      (Codebox.new lines).width = specCharWidth lines) := by
  refine ⟨rfl, rfl, fun h => ?_⟩
  show (lines.map lineByteLen).foldr max 0 = (lines.map List.length).foldr max 0
  have hmap : lines.map lineByteLen = lines.map List.length := by
    apply List.map_congr_left
    intro l hl
    exact lineByteLen_ascii l (h l hl)
  rw [hmap]

/-- C4 amended, witnessed on the two-line ASCII source `ab` / `c`. -/
theorem codebox_dimensions_witness :
    (Codebox.new [['a', 'b'], ['c']]).height = 2 ∧
    (Codebox.new [['a', 'b'], ['c']]).width = 2 := by
  have h := codebox_dimensions [['a', 'b'], ['c']]
  refine ⟨h.1, ?_⟩
  have hw := h.2.2 (by decide)
  rw [hw]
  decide

/-- `VecDeque::swap` commutes with a cons when both indices are shifted. -/
theorem listSwap_cons (x : F64) (l : List F64) (i j : Nat) :
    listSwap (x :: l) (i + 1) (j + 1) = x :: listSwap l i j := by
  have e1 : (x :: l).get? (i + 1) = l.get? i := rfl
  have e2 : (x :: l).get? (j + 1) = l.get? j := rfl
  unfold listSwap
  rw [e1, e2]
  cases h1 : l.get? i <;> cases h2 : l.get? j <;> rfl

/-- The swap loop commutes with a cons while all touched indices stay inside
the tail. -/
theorem swapSteps_cons (x : F64) (l : List F64) (len k : Nat) (hk : k < len) :
    swapSteps (len + 1) (x :: l) k = x :: swapSteps len l k := by
  induction k with
  | zero => rfl
  | succ k ih =>
    have h1 : len + 1 - (k + 1) = (len - (k + 1)) + 1 := by omega
    have h2 : len + 1 - (k + 1) - 1 = (len - (k + 1) - 1) + 1 := by omega
    calc swapSteps (len + 1) (x :: l) (k + 1)
        = listSwap (swapSteps (len + 1) (x :: l) k)
            (len + 1 - (k + 1)) (len + 1 - (k + 1) - 1) := rfl
      _ = listSwap (x :: swapSteps len l k)
            ((len - (k + 1)) + 1) ((len - (k + 1) - 1) + 1) := by
          rw [ih (by omega), h2, h1]
      _ = x :: listSwap (swapSteps len l k) (len - (k + 1)) (len - (k + 1) - 1) :=
          listSwap_cons _ _ _ _
      _ = x :: swapSteps len l (k + 1) := rfl

/-- One iteration of the loop on a stack of at least two entries swaps the
top two. -/
theorem swapSteps_concat2 (l : List F64) (a b : F64) :
    swapSteps (l ++ [a, b]).length (l ++ [a, b]) 1 = l ++ [b, a] := by
  induction l with
  | nil => rfl
  | cons x l ih =>
    have hlen : (x :: (l ++ [a, b])).length = (l ++ [a, b]).length + 1 := by simp
    rw [List.cons_append, hlen, swapSteps_cons x (l ++ [a, b]) _ 1 (by simp), ih]
    rfl

/-- Two iterations of the loop on a stack of at least three entries move the
top entry to depth two, shifting the other two up. -/
theorem swapSteps_concat3 (l : List F64) (a b c : F64) :
    swapSteps (l ++ [a, b, c]).length (l ++ [a, b, c]) 2 = l ++ [c, a, b] := by
  induction l with
  | nil => rfl
  | cons x l ih =>
    have hlen : (x :: (l ++ [a, b, c])).length = (l ++ [a, b, c]).length + 1 := by simp
    rw [List.cons_append, hlen, swapSteps_cons x (l ++ [a, b, c]) _ 2 (by simp), ih]
    rfl

/-- C3 counterexample: on the substack with values 1,2,3,4 (bottom to top),
`@` produces 1,4,2,3 — exactly what the repository's own `swap3` test
records — whose new top is 3; the element that was at depth 2, namely 2, did
not become the top, contrary to the claim. -/
theorem swap3_counterexample :
    Stack.swap 3 (Stack.mk [F64.num 1, F64.num 2, F64.num 3, F64.num 4] none) =
      Except.ok (Stack.mk [F64.num 1, F64.num 4, F64.num 2, F64.num 3] none) ∧
    [F64.num 1, F64.num 4, F64.num 2, F64.num 3].getLast? ≠ some (F64.num 2) := by
  refine ⟨rfl, ?_⟩
  decide

/-- C3 amended: `swap n` performs `n − 1` adjacent swaps walking downward
from the top, which moves the element that was at the top down to depth
`n − 1` and each of the other `n − 1` elements up by one — so `$` swaps the
top two and `@` sends the old top to third-from-top with the old
second-from-top becoming the new top (bottom-to-top, `… a b` becomes `… b a`
and `… a b c` becomes `… c a b`) — deeper elements and the register are
unchanged; with fewer than `n` values it fails with `Underflow`. -/
theorem swap_spec (l : List F64) (a b c : F64) (r : Option F64) (n : Nat) (s : Stack) :
    Stack.swap 2 (Stack.mk (l ++ [a, b]) r) = Except.ok (Stack.mk (l ++ [b, a]) r) ∧
    Stack.swap 3 (Stack.mk (l ++ [a, b, c]) r) = Except.ok (Stack.mk (l ++ [c, a, b]) r) ∧
    (s.entries.length < n → Stack.swap n s = Except.error StackError.underflow) := by
  refine ⟨?_, ?_, ?_⟩
  · show (if 2 > (l ++ [a, b]).length then _ else _) = _
    rw [if_neg (by simp)]
    rw [show (2 : Nat) - 1 = 1 from rfl, swapSteps_concat2]
  · show (if 3 > (l ++ [a, b, c]).length then _ else _) = _
    rw [if_neg (by simp)]
    rw [show (3 : Nat) - 1 = 2 from rfl, swapSteps_concat3]
  · intro h
    show (if n > s.entries.length then _ else _) = _
    rw [if_pos h]

/-- C3 amended, witnessed: `$` on 1,2 gives 2,1; `@` on 1,2,3,4 gives
1,4,2,3; `@` on a single value underflows. -/
theorem swap_spec_witness :
    Stack.swap 2 (Stack.mk [F64.num 1, F64.num 2] none) =
      Except.ok (Stack.mk [F64.num 2, F64.num 1] none) ∧
    Stack.swap 3 (Stack.mk [F64.num 1] (some (F64.num 9))) =
      Except.error StackError.underflow := by
  constructor
  · exact (swap_spec [] (F64.num 1) (F64.num 2) (F64.num 3) none 0 (Stack.mk [] none)).1
  · exact (swap_spec [] (F64.num 1) (F64.num 2) (F64.num 3) none 3
      (Stack.mk [F64.num 1] (some (F64.num 9)))).2.2 (by decide)

/-- On an in-range coordinate, the incrementing wrap is the cyclic
successor. -/
theorem getWrappedCoord_succ (x w : Nat) (hx : x < w) :
    getWrappedCoord x 1 w = (x + 1) % w := by
  unfold getWrappedCoord
  split_ifs with h1 h2
  · omega
  · have hxw : x + 1 = w := by omega
    rw [hxw, Nat.mod_self]
  · rw [Nat.mod_eq_of_lt (by omega)]
    omega

/-- One East step on an in-range pointer. -/
theorem getNextPos_east (w h x y : Nat) (hx : x < w) :
    getNextPos w h Direction.east (Pos.mk x y) = Pos.mk ((x + 1) % w) y := by
  simp [getNextPos, getWrappedCoord_succ x w hx]

/-- One South step on an in-range pointer. -/
theorem getNextPos_south (w h x y : Nat) (hy : y < h) :
    getNextPos w h Direction.south (Pos.mk x y) = Pos.mk x ((y + 1) % h) := by
  simp [getNextPos, getWrappedCoord_succ y h hy]

/-- Iterated East steps move the x coordinate cyclically. -/
theorem iterate_east (w h y : Nat) (hw : 0 < w) :
    ∀ (k x : Nat), x < w →
      (getNextPos w h Direction.east)^[k] (Pos.mk x y) = Pos.mk ((x + k) % w) y := by
  intro k
  induction k with
  | zero =>
    intro x hx
    simp [Nat.mod_eq_of_lt hx]
  | succ k ih =>
    intro x hx
    rw [Function.iterate_succ_apply, getNextPos_east w h x y hx,
      ih ((x + 1) % w) (Nat.mod_lt _ hw)]
    have : ((x + 1) % w + k) % w = (x + (k + 1)) % w := by
      rw [Nat.mod_add_mod]
      congr 1
      omega
    rw [this]

/-- Iterated South steps move the y coordinate cyclically. -/
theorem iterate_south (w h x : Nat) (hh : 0 < h) :
    ∀ (k y : Nat), y < h →
      (getNextPos w h Direction.south)^[k] (Pos.mk x y) = Pos.mk x ((y + k) % h) := by
  intro k
  induction k with
  | zero =>
    intro y hy
    simp [Nat.mod_eq_of_lt hy]
  | succ k ih =>
    intro y hy
    rw [Function.iterate_succ_apply, getNextPos_south w h x y hy,
      ih ((y + 1) % h) (Nat.mod_lt _ hh)]
    have : ((y + 1) % h + k) % h = (y + (k + 1)) % h := by
      rw [Nat.mod_add_mod]
      congr 1
      omega
    rw [this]

/-- C5: on a W×H codebox with the pointer in range, W raw East steps of
`get_next_pos` return the pointer to where it started, and likewise H South
steps; `get_wrapped_coord` sends a decrement at 0 to `dimension − 1` and an
increment at or past `dimension − 1` to 0. -/
theorem pointer_wrapping (w h x y : Nat) (hx : x < w) (hw : 0 < w)
    (hy : y < h) (hh : 0 < h) :
    ((getNextPos w h Direction.east)^[w] (Pos.mk x y) = Pos.mk x y) ∧
    ((getNextPos w h Direction.south)^[h] (Pos.mk x y) = Pos.mk x y) ∧
    (∀ m : Nat, 0 < m → getWrappedCoord 0 (-1) m = m - 1) ∧
    (∀ c m : Nat, m ≤ c + 1 → getWrappedCoord c 1 m = 0) := by
  refine ⟨?_, ?_, ?_, ?_⟩
  · rw [iterate_east w h y hw w x hx, Nat.add_mod_right, Nat.mod_eq_of_lt hx]
  · rw [iterate_south w h x hh h y hy, Nat.add_mod_right, Nat.mod_eq_of_lt hy]
  · intro m hm
    unfold getWrappedCoord
    rw [if_pos ⟨rfl, by norm_num⟩]
  · intro c m hcm
    unfold getWrappedCoord
    split_ifs with h1 h2
    · omega
    · rfl
    · omega

/-- C5, witnessed on a 3×2 codebox at pointer (1, 0) and on concrete wrap
computations. -/
theorem pointer_wrapping_witness :
    ((getNextPos 3 2 Direction.east)^[3] (Pos.mk 1 0) = Pos.mk 1 0) ∧
    ((getNextPos 3 2 Direction.south)^[2] (Pos.mk 1 0) = Pos.mk 1 0) ∧
    getWrappedCoord 0 (-1) 5 = 4 ∧
    getWrappedCoord 6 1 7 = 0 := by
  have hmain := pointer_wrapping 3 2 1 0 (by decide) (by decide) (by decide) (by decide)
  exact ⟨hmain.1, hmain.2.1, hmain.2.2.1 5 (by decide), hmain.2.2.2 6 7 (by decide)⟩

/-- Reading back the current stack after writing it. -/
theorem curr_setCurr (ps : ProgramStack) (s : Stack) : (ps.setCurr s).curr = s := by
  unfold ProgramStack.setCurr ProgramStack.curr
  cases hs : ps.substacks with
  | nil => rfl
  | cons a l =>
    simp only []
    rw [List.getLast?_concat]
    rfl

/-- Two consecutive writes to the current stack collapse to the second. -/
theorem setCurr_setCurr (ps : ProgramStack) (s t : Stack) :
    (ps.setCurr s).setCurr t = ps.setCurr t := by
  unfold ProgramStack.setCurr
  cases hs : ps.substacks with
  | nil => rfl
  | cons a l =>
    simp only []
    cases hsplit : (a :: l).dropLast ++ [s] with
    | nil => simp at hsplit
    | cons b m =>
      have hdl : (b :: m).dropLast = (a :: l).dropLast := by
        rw [← hsplit, List.dropLast_concat]
      simp only []
      rw [hdl]

/-- Characterisation of a successful `Stack::pop`. -/
theorem pop_ok (s : Stack) (v : F64) (s1 : Stack) (h : s.pop = Except.ok (v, s1)) :
    s.entries.getLast? = some v ∧ s1 = Stack.mk s.entries.dropLast s.register := by
  unfold Stack.pop at h
  cases hl : s.entries.getLast? with
  | none => rw [hl] at h; exact absurd h (by simp)
  | some w =>
    rw [hl] at h
    simp only [Except.ok.injEq, Prod.mk.injEq] at h
    exact ⟨by rw [h.1], h.2.symm⟩

/-- Characterisation of a successful `Stack::split`. -/
theorem split_ok (s ns rest : Stack) (h : s.split = Except.ok (ns, rest)) :
    ∃ v, s.entries.getLast? = some v ∧
      v.toUsize ≤ s.entries.dropLast.length ∧
      ns = Stack.mk
        (s.entries.dropLast.drop (s.entries.dropLast.length - v.toUsize)) none ∧
      rest = Stack.mk
        (s.entries.dropLast.take (s.entries.dropLast.length - v.toUsize)) s.register := by
  unfold Stack.split at h
  cases hpop : s.pop with
  | error e => rw [hpop] at h; exact absurd h (by simp)
  | ok pr =>
    obtain ⟨v, s1⟩ := pr
    rw [hpop] at h
    obtain ⟨hl, hs1⟩ := pop_ok s v s1 hpop
    subst hs1
    simp only [] at h
    split_ifs at h with hlen
    simp only [Except.ok.injEq, Prod.mk.injEq] at h
    obtain ⟨hns, hrest⟩ := h
    exact ⟨v, hl, by omega, hns.symm, hrest.symm⟩

/-- Characterisation of a successful `ProgramStack::split_stack`. -/
theorem split_stack_ok (ps ps' : ProgramStack) (h : ps.split_stack = Except.ok ps') :
    ∃ ns rest, ps.curr.split = Except.ok (ns, rest) ∧
      ps' = ProgramStack.mk (ps.setCurr rest).base ((ps.setCurr rest).substacks ++ [ns]) := by
  unfold ProgramStack.split_stack at h
  cases hsp : ps.curr.split with
  | error e => rw [hsp] at h; exact absurd h (by simp)
  | ok pr =>
    obtain ⟨ns, rest⟩ := pr
    rw [hsp] at h
    simp only [Except.ok.injEq] at h
    exact ⟨ns, rest, rfl, h.symm⟩

/-- `drop_stack` on a machine whose substack vector ends in `t`: pop `t` and
extend the newly current stack with its entries. -/
theorem drop_stack_concat (b : Stack) (ss : List Stack) (t : Stack) :
    (ProgramStack.mk b (ss ++ [t])).drop_stack =
      (ProgramStack.mk b ss).setCurr ((ProgramStack.mk b ss).curr.extend t.entries) := by
  unfold ProgramStack.drop_stack
  simp only []
  rw [List.getLast?_concat]
  simp only [List.dropLast_concat]

/-- C7 counterexample: with base values 7, 1 (1 on top), `[` succeeds —
popping the count 1 and moving 7 into a fresh substack — and the matching `]`
merges it back, leaving only the value 7: the multiset of values of the base
substack, which was {7, 1} before the `[`, is not preserved, because `[`
consumes the popped count. -/
theorem bracket_pair_counterexample :
    ProgramStack.split_stack
        (ProgramStack.mk (Stack.mk [F64.num 7, F64.num 1] none) []) =
      Except.ok (ProgramStack.mk (Stack.mk [] none) [Stack.mk [F64.num 7] none]) ∧
    ProgramStack.drop_stack
        (ProgramStack.mk (Stack.mk [] none) [Stack.mk [F64.num 7] none]) =
      ProgramStack.mk (Stack.mk [F64.num 7] none) [] ∧
    ¬ ((([F64.num 7] : List F64) : Multiset F64) =
        (([F64.num 7, F64.num 1] : List F64) : Multiset F64)) := by
  refine ⟨rfl, rfl, fun hms => ?_⟩
  have hperm : List.Perm [F64.num 7] [F64.num 7, F64.num 1] := Multiset.coe_eq_coe.mp hms
  simpa using hperm.length_eq

/-- C7 amended: when `[` succeeds, executing `[` immediately followed by `]`
leaves the machine exactly as if the substack that was current had its top
value (the count popped by `[`) removed: its remaining values keep their
order, its register is kept, and everything else is unchanged; moreover the
register of the substack popped by `]` is discarded — the result of `]` never
depends on it. -/
theorem bracket_pair_preserves_rest (ps ps' : ProgramStack)
    (h : ps.split_stack = Except.ok ps') :
    ps'.drop_stack = ps.setCurr (Stack.mk ps.curr.entries.dropLast ps.curr.register) ∧
    ∀ (b : Stack) (ss : List Stack) (ents : List F64) (r1 r2 : Option F64),
      (ProgramStack.mk b (ss ++ [Stack.mk ents r1])).drop_stack =
        (ProgramStack.mk b (ss ++ [Stack.mk ents r2])).drop_stack := by
  constructor
  · obtain ⟨ns, rest, hsp, hps'⟩ := split_stack_ok ps ps' h
    obtain ⟨v, hl, hle, hns, hrest⟩ := split_ok ps.curr ns rest hsp
    subst hps'
    have hconcat := drop_stack_concat (ps.setCurr rest).base (ps.setCurr rest).substacks ns
    rw [hconcat, curr_setCurr, setCurr_setCurr]
    congr 1
    rw [hrest, hns]
    unfold Stack.extend
    simp only []
    rw [List.take_append_drop]
  · intro b ss ents r1 r2
    rw [drop_stack_concat, drop_stack_concat]

/-- C7 amended, witnessed on the base 7, 1: after `[` then `]` the base holds
exactly 7 with its register kept. -/
theorem bracket_pair_witness :
    ProgramStack.drop_stack
        (ProgramStack.mk (Stack.mk [] none) [Stack.mk [F64.num 7] none]) =
      ProgramStack.mk (Stack.mk [F64.num 7] none) [] := by
  have h := bracket_pair_preserves_rest
    (ProgramStack.mk (Stack.mk [F64.num 7, F64.num 1] none) [])
    (ProgramStack.mk (Stack.mk [] none) [Stack.mk [F64.num 7] none]) rfl
  exact h.1

/-- A negative or NaN value is cast to the count 0 by `as usize`. -/
theorem toUsize_eq_zero (v : F64) (hv : v.isNegOrNan = true) : v.toUsize = 0 := by
  cases v with
  | nan => rfl
  | num q =>
    have hq : q < 0 := of_decide_eq_true hv
    show F64.toUsize (F64.num q) = 0
    rw [show F64.toUsize (F64.num q) =
      if q < 0 then 0 else min (q.num.toNat / q.den) (2 ^ 64 - 1) from rfl]
    rw [if_pos hq]

/-- C9: when the top of the current substack is negative or NaN, `[` does not
underflow: the count is cast to 0, a fresh empty substack with unset register
is pushed, and the old current substack keeps all its remaining values (and
its register) below it. -/
theorem split_neg_nan (ps : ProgramStack) (v : F64)
    (htop : ps.curr.entries.getLast? = some v) (hv : v.isNegOrNan = true) :
    ps.split_stack = Except.ok
      (ProgramStack.mk
        (ps.setCurr (Stack.mk ps.curr.entries.dropLast ps.curr.register)).base
        ((ps.setCurr (Stack.mk ps.curr.entries.dropLast ps.curr.register)).substacks ++
          [Stack.mk [] none])) := by
  have hsplit : ps.curr.split =
      Except.ok (Stack.mk [] none,
        Stack.mk ps.curr.entries.dropLast ps.curr.register) := by
    unfold Stack.split Stack.pop
    rw [htop]
    simp only [toUsize_eq_zero v hv]
    rw [if_neg (by omega)]
    simp
  unfold ProgramStack.split_stack
  rw [hsplit]

/-- C9, witnessed on a base whose top is −1 (and again NaN): `[` pushes an
empty substack and keeps the value below. -/
theorem split_neg_nan_witness :
    ProgramStack.split_stack
        (ProgramStack.mk (Stack.mk [F64.num 7, F64.num (-1)] none) []) =
      Except.ok (ProgramStack.mk (Stack.mk [F64.num 7] none) [Stack.mk [] none]) ∧
    ProgramStack.split_stack (ProgramStack.mk (Stack.mk [F64.nan] none) []) =
      Except.ok (ProgramStack.mk (Stack.mk [] none) [Stack.mk [] none]) := by
  constructor
  · exact split_neg_nan (ProgramStack.mk (Stack.mk [F64.num 7, F64.num (-1)] none) [])
      (F64.num (-1)) rfl (by decide)
  · exact split_neg_nan (ProgramStack.mk (Stack.mk [F64.nan] none) [])
      F64.nan rfl rfl

/-- C10: `p` writing code point 32 stores the character cell `Op ' '` (the
`set_instruction` path never stores a `Noop`), so reading the cell back gives
`Op ' '`; the Normal-mode skip loop of `move_to_next` stops on that cell
because only `Noop` cells are skipped; executing the space character in
Normal mode falls through every dispatch arm and raises `InvalidInstruction`;
by contrast, a space in the original source is recorded as `Noop` by
`Codebox::new`. -/
theorem written_space_is_op (cb : Codebox) (p : Pos) (d : Direction)
    (lines : List (List Char)) (x y : Nat)
    (hsrc : (lines.get? y).bind (fun l => l.get? x) = some ' ') :
    ((cb.set_instruction p ' ').get_instruction p = Instruction.op ' ') ∧
    (∀ fuel, skipNoops (cb.set_instruction p ' ') d fuel p = p) ∧
    (∀ (q : Pos) (fuel : Nat),
      getNextPos (cb.set_instruction p ' ').width (cb.set_instruction p ' ').height d q = p →
      moveToNext (cb.set_instruction p ' ') ParseMode.normal d fuel q = p) ∧
    normalDispatchError ' ' = some (RuntimeError.invalidInstr ' ') ∧
    (Codebox.new lines).get_instruction (Pos.mk x y) = Instruction.noop := by
  have hget : (cb.set_instruction p ' ').get_instruction p = Instruction.op ' ' := by
    simp [Codebox.set_instruction, Codebox.get_instruction]
  have hskip : ∀ fuel, skipNoops (cb.set_instruction p ' ') d fuel p = p := by
    intro fuel
    cases fuel with
    | zero => rfl
    | succ n =>
      unfold skipNoops
      rw [hget]
      simp
  refine ⟨hget, hskip, ?_, by decide, ?_⟩
  · intro q fuel hq
    unfold moveToNext
    simp only [if_pos rfl]
    rw [hq]
    exact hskip fuel
  · unfold Codebox.new Codebox.get_instruction
    simp only []
    rw [hsrc]
    simp

/-- C10, witnessed: writing a space over the cell (0,0) of the source `a`
yields a character cell the skip loop does not skip, while the source
consisting of one space maps (0,0) to a no-op. -/
theorem written_space_is_op_witness :
    (((Codebox.new [['a']]).set_instruction (Pos.mk 0 0) ' ').get_instruction (Pos.mk 0 0) =
      Instruction.op ' ') ∧
    moveToNext ((Codebox.new [['a']]).set_instruction (Pos.mk 0 0) ' ')
      ParseMode.normal Direction.east 1 (Pos.mk 0 0) = Pos.mk 0 0 ∧
    normalDispatchError ' ' = some (RuntimeError.invalidInstr ' ') ∧
    (Codebox.new [[' ']]).get_instruction (Pos.mk 0 0) = Instruction.noop := by
  have h := written_space_is_op (Codebox.new [['a']]) (Pos.mk 0 0) Direction.east
    [[' ']] 0 0 rfl
  exact ⟨h.1, h.2.2.1 (Pos.mk 0 0) 1 (by decide), h.2.2.2.1, h.2.2.2.2⟩

end RedCod
